import Mathlib

/-!
# A shallow embedding of the svs-index client data layer

This file embeds the client-side cache/sync core of the `svs-index`
repository — `src/db.ts` (the IndexedDB-backed Persistent Store),
`src/data.ts` (the Sync Engine: `fetchJSON`, `ensureCategoryUpdated`,
`loadCategory`) and the detail-page lookup logic of `src/detail.ts`
(`boot`) — and proves the specified properties of that core.

Modelling conventions:

* Each IndexedDB object store (`singers`, `softwares`, `meta`) is an
  association list keyed by a string; `idbPut` is IndexedDB's upsert-by-key
  `put`, `idbGet` is point lookup `get`, `getAll` maps to the list of values.
* `fetch` outcomes are supplied by a `NetworkState` oracle.  A fetch of one
  URL can: reject (network error), resolve non-2xx, resolve 2xx with a body
  whose JSON parse rejects, or resolve to a parsed JSON value, which is
  either an array of records or some other JSON value (tracked together
  with its JS truthiness).  Since the shards under `/data/singers/` hold
  singer records and those under `/data/softwares/` hold software records,
  the oracle is typed per namespace.
* Rejections of `await`ed operations are modelled with `Except Unit`;
  `fetchJSON`'s `try/catch` maps every rejection to `none` (`undefined`).
  Store operations themselves are assumed to succeed (no
  StorageUnavailable), which is the environment condition of the claims.
* Executions additionally record a `SyncEvent` trace (fetches performed,
  metadata writes, batched record writes) in program order, so that the
  temporal and fetch-count properties are stated over the trace.
-/

namespace SvsIndex

/-- Language-code → display-name map (`NamesMap` in `src/types.ts`). -/
abbrev NamesMap := List (String × String)

/-- `SingerVariant` of `src/types.ts`. -/
structure SingerVariant where
  id : String
  names : NamesMap
  download_url : Option String
  manual_download_url : Option String
  tags : Option (List String)
deriving DecidableEq, Repr

/-- `Singer` of `src/types.ts`. -/
structure Singer where
  id : String
  names : NamesMap
  owners : List String
  authors : List String
  homepage_url : Option String
  profile_image_url : Option String
  variants : List SingerVariant
deriving DecidableEq, Repr

/-- `SoftwareCategory` of `src/types.ts`. -/
inductive SoftwareCategory where
  | host
  | host_extension
  | utility
deriving DecidableEq, Repr

/-- `Software` of `src/types.ts`. -/
structure Software where
  id : String
  names : NamesMap
  category : SoftwareCategory
  developers : List String
  homepage_url : Option String
  download_url : Option String
  manual_download_url : Option String
  tags : Option (List String)
deriving DecidableEq, Repr

/-- `DataManifestEntry` of `src/types.ts` (`ts` is a unix-epoch-ms number). -/
structure DataManifestEntry where
  file : String
  ts : Int
deriving DecidableEq, Repr

/-- `DataManifest` of `src/types.ts`. -/
structure DataManifest where
  singers : List DataManifestEntry
  softwares : List DataManifestEntry
deriving DecidableEq, Repr

/-- IndexedDB `objectStore.put`: upsert by key (last write wins). -/
def idbPut {α : Type} (m : List (String × α)) (k : String) (v : α) :
    List (String × α) :=
  match m with
  | [] => [(k, v)]
  | (k', v') :: rest => if k' = k then (k, v) :: rest else (k', v') :: idbPut rest k v

/-- IndexedDB `objectStore.get`: point lookup by key. -/
def idbGet {α : Type} (m : List (String × α)) (k : String) : Option α :=
  match m with
  | [] => none
  | (k', v') :: rest => if k' = k then some v' else idbGet rest k

/-- One `readwrite` transaction putting each item under its `id` key
(the loop bodies of `putSingers` / `putSoftwares` in `src/db.ts`). -/
def idbPutMany {α : Type} (key : α → String) (m : List (String × α))
    (items : List α) : List (String × α) :=
  items.foldl (fun acc it => idbPut acc (key it) it) m

/-- The three object stores of the `svs-index` IndexedDB database
(`src/db.ts`): `singers` and `softwares` keyed by `id`, `meta` keyed by
`key`.  The metadata values actually stored by the program are numeric
timestamps. -/
structure Store where
  singers : List (String × Singer)
  softwares : List (String × Software)
  meta : List (String × Int)
deriving DecidableEq, Repr

/-- A freshly created database: all three stores empty. -/
def emptyStore : Store := ⟨[], [], []⟩

/-- `putSingers` of `src/db.ts`. -/
def putSingers (items : List Singer) (s : Store) : Store :=
  { s with singers := idbPutMany Singer.id s.singers items }

/-- `putSoftwares` of `src/db.ts`. -/
def putSoftwares (items : List Software) (s : Store) : Store :=
  { s with softwares := idbPutMany Software.id s.softwares items }

/-- `getAllSingers` of `src/db.ts`. -/
def getAllSingers (s : Store) : List Singer := s.singers.map Prod.snd

/-- `getAllSoftwares` of `src/db.ts`. -/
def getAllSoftwares (s : Store) : List Software := s.softwares.map Prod.snd

/-- `getSingerById` of `src/db.ts`. -/
def getSingerById (id : String) (s : Store) : Option Singer :=
  idbGet s.singers id

/-- `getSoftwareById` of `src/db.ts`. -/
def getSoftwareById (id : String) (s : Store) : Option Software :=
  idbGet s.softwares id

/-- `setMeta` of `src/db.ts`. -/
def setMeta (key : String) (value : Int) (s : Store) : Store :=
  { s with meta := idbPut s.meta key value }

/-- `getMeta` of `src/db.ts`. -/
def getMeta (key : String) (s : Store) : Option Int :=
  idbGet s.meta key

/-- A parsed JSON response body: either a JSON array of records, or any
other JSON value, tracked with its JS truthiness (`null`, `0`, `""`,
`false` are falsy; objects and the rest are truthy). -/
inductive Payload (α : Type) where
  | arr (xs : List α)
  | nonArray (truthy : Bool)
deriving DecidableEq, Repr

/-- The possible outcomes of `fetch(url)` + `res.json()` for one URL:
the fetch itself rejects, resolves with `!res.ok`, resolves ok but the
body fails to parse as JSON (e.g. an empty body), or parses to a value. -/
inductive FetchResult (α : Type) where
  | throws
  | httpError
  | parseError
  | value (p : Payload α)
deriving DecidableEq, Repr

/-- The network environment of one run: what each shard URL serves.
Shards under `/data/singers/` carry singer records, shards under
`/data/softwares/` carry software records. -/
structure NetworkState where
  singerShards : String → FetchResult Singer
  softwareShards : String → FetchResult Software

/-- The body of `fetchJSON` (`src/data.ts` lines 16–24) *before* its
`try/catch`: `.error ()` marks a rejected `await`. -/
def fetchJSONBody {α : Type} (shards : String → FetchResult α) (url : String) :
    Except Unit (Option (Payload α)) :=
  match shards url with
  | .throws => .error ()
  | .httpError => .ok none
  | .parseError => .error ()
  | .value p => .ok (some p)

/-- `fetchJSON` of `src/data.ts`: the `catch` maps every rejection to
`undefined` (`none`). -/
def fetchJSON {α : Type} (shards : String → FetchResult α) (url : String) :
    Option (Payload α) :=
  match fetchJSONBody shards url with
  | .ok r => r
  | .error _ => none

/-- `fetchJSON` restricted to the successful-array case — the payloads
accepted by the `data && Array.isArray(data)` guard in
`ensureCategoryUpdated`. -/
def fetchedArr {α : Type} (shards : String → FetchResult α) (url : String) :
    Option (List α) :=
  match fetchJSON shards url with
  | some (.arr xs) => some xs
  | _ => none

/-- Observable side effects of one `ensureCategoryUpdated` run, in
program order. -/
inductive SyncEvent where
  | fetched (url : String)
  | wroteMeta (key : String) (ts : Int)
  | wroteSingers (items : List Singer)
  | wroteSoftwares (items : List Software)
deriving DecidableEq, Repr

/-- The URLs fetched during a run, in order. -/
def fetchedUrls : List SyncEvent → List String
  | [] => []
  | .fetched url :: rest => url :: fetchedUrls rest
  | _ :: rest => fetchedUrls rest

/-- The sync-metadata key `${category}:file:${file}` of `src/data.ts`. -/
def metaKey (category file : String) : String :=
  category ++ ":file:" ++ file

/-- The first loop of `ensureCategoryUpdated` (`src/data.ts` lines
32–39): collect the files whose manifest timestamp is newer than the
stored one, where an absent metadata entry reads as `-1`
(`(await getMeta<number>(metaKey)) ?? -1`). -/
def computeChanged (category : String) (s : Store) :
    List DataManifestEntry → List String
  | [] => []
  | e :: rest =>
      let savedTs := (getMeta (metaKey category e.file) s).getD (-1)
      if savedTs < e.ts then e.file :: computeChanged category s rest
      else computeChanged category s rest

/-- `entries.find((e) => e.file === file)!.ts` of `src/data.ts`.  The
non-null assertion is sound because the files passed in come from
`entries`; the `none` branch is unreachable there. -/
def manifestTs (entries : List DataManifestEntry) (file : String) : Int :=
  match entries.find? (fun e => e.file == file) with
  | some e => e.ts
  | none => 0

/-- The per-file fetch/merge loop of the singer branch of
`ensureCategoryUpdated` (`src/data.ts` lines 44–54), threading the
accumulated records, the store and the event trace.  The
`data && Array.isArray(data)` guard holds exactly for array payloads,
since a JS array is always truthy. -/
def singerLoop (shards : String → FetchResult Singer) (basePath : String)
    (entries : List DataManifestEntry) :
    List String → List Singer × Store × List SyncEvent →
      List Singer × Store × List SyncEvent
  | [], acc => acc
  | file :: rest, (allData, s, evs) =>
      let url := basePath ++ file
      let evs := evs ++ [.fetched url]
      match fetchJSON shards url with
      | some (.arr xs) =>
          let ts := manifestTs entries file
          singerLoop shards basePath entries rest
            (allData ++ xs, setMeta (metaKey "singer" file) ts s,
              evs ++ [.wroteMeta (metaKey "singer" file) ts])
      | _ => singerLoop shards basePath entries rest (allData, s, evs)

/-- The per-file fetch/merge loop of the software branch of
`ensureCategoryUpdated` (`src/data.ts` lines 57–67). -/
def softwareLoop (shards : String → FetchResult Software) (basePath : String)
    (entries : List DataManifestEntry) :
    List String → List Software × Store × List SyncEvent →
      List Software × Store × List SyncEvent
  | [], acc => acc
  | file :: rest, (allData, s, evs) =>
      let url := basePath ++ file
      let evs := evs ++ [.fetched url]
      match fetchJSON shards url with
      | some (.arr xs) =>
          let ts := manifestTs entries file
          softwareLoop shards basePath entries rest
            (allData ++ xs, setMeta (metaKey "software" file) ts s,
              evs ++ [.wroteMeta (metaKey "software" file) ts])
      | _ => softwareLoop shards basePath entries rest (allData, s, evs)

/-- `ensureCategoryUpdated` of `src/data.ts`.  The `category` parameter
is a runtime string compared against `'singer'` (the `Category` type of
`src/types.ts` is compile-time only), returning the updated store and
the event trace.  `if (allData.length)` skips the batched write when
nothing was accumulated. -/
def ensureCategoryUpdated (net : NetworkState) (manifest : DataManifest)
    (category : String) (s : Store) : Store × List SyncEvent :=
  let entries := if category = "singer" then manifest.singers else manifest.softwares
  let basePath := if category = "singer" then "/data/singers/" else "/data/softwares/"
  let changedFiles := computeChanged category s entries
  if changedFiles.length = 0 then (s, [])
  else if category = "singer" then
    match singerLoop net.singerShards basePath entries changedFiles ([], s, []) with
    | (allData, s1, evs) =>
        if allData.length = 0 then (s1, evs)
        else (putSingers allData s1, evs ++ [.wroteSingers allData])
  else
    match softwareLoop net.softwareShards basePath entries changedFiles ([], s, []) with
    | (allData, s1, evs) =>
        if allData.length = 0 then (s1, evs)
        else (putSoftwares allData s1, evs ++ [.wroteSoftwares allData])

/-- `loadCategory` of `src/data.ts`: sync the category, then return the
full snapshot of its partition. -/
def loadCategory (net : NetworkState) (manifest : DataManifest)
    (category : String) (s : Store) :
    Store × List SyncEvent × (List Singer ⊕ List Software) :=
  let r := ensureCategoryUpdated net manifest category s
  (r.1, r.2,
    if category = "singer" then Sum.inl (getAllSingers r.1)
    else Sum.inr (getAllSoftwares r.1))

/-- Outcome of the detail page's `boot` (`src/detail.ts`): which page
was rendered, or the error paragraph. -/
inductive DetailResult where
  | missingId
  | renderedSinger (item : Singer)
  | renderedSoftware (item : Software)
  | failedToLoad
deriving DecidableEq, Repr

/-- `boot` of `src/detail.ts`, given the already-extracted query
parameters: point lookup, one `loadCategory` sync on a miss, one retry,
and the `catch` rendering the failure paragraph when the record is still
absent (`throw new Error('... not found')`).  Also returns the resulting
store and the number of sync passes performed. -/
def boot (net : NetworkState) (manifest : DataManifest)
    (category id : String) (s : Store) : DetailResult × Store × Nat :=
  if id = "" then (.missingId, s, 0)
  else if category = "singer" then
    match getSingerById id s with
    | some item => (.renderedSinger item, s, 0)
    | none =>
        let r := loadCategory net manifest "singer" s
        match getSingerById id r.1 with
        | some item => (.renderedSinger item, r.1, 1)
        | none => (.failedToLoad, r.1, 1)
  else
    match getSoftwareById id s with
    | some item => (.renderedSoftware item, s, 0)
    | none =>
        let r := loadCategory net manifest "software" s
        match getSoftwareById id r.1 with
        | some item => (.renderedSoftware item, r.1, 1)
        | none => (.failedToLoad, r.1, 1)

/-- `fetchJSON` with its `try/catch` made explicit in the rejection
monad: the `catch` turns a rejected body into a resolved `undefined`. -/
def fetchJSONE {α : Type} (shards : String → FetchResult α) (url : String) :
    Except Unit (Option (Payload α)) :=
  match fetchJSONBody shards url with
  | .ok r => .ok r
  | .error _ => .ok none

/-- The singer branch loop of `ensureCategoryUpdated` in the rejection
monad: each `await fetchJSON(...)` may in principle reject. -/
def singerLoopE (shards : String → FetchResult Singer) (basePath : String)
    (entries : List DataManifestEntry) :
    List String → List Singer × Store × List SyncEvent →
      Except Unit (List Singer × Store × List SyncEvent)
  | [], acc => .ok acc
  | file :: rest, (allData, s, evs) => do
      let url := basePath ++ file
      let evs := evs ++ [.fetched url]
      let data ← fetchJSONE shards url
      match data with
      | some (.arr xs) =>
          let ts := manifestTs entries file
          singerLoopE shards basePath entries rest
            (allData ++ xs, setMeta (metaKey "singer" file) ts s,
              evs ++ [.wroteMeta (metaKey "singer" file) ts])
      | _ => singerLoopE shards basePath entries rest (allData, s, evs)

/-- The software branch loop of `ensureCategoryUpdated` in the rejection
monad. -/
def softwareLoopE (shards : String → FetchResult Software) (basePath : String)
    (entries : List DataManifestEntry) :
    List String → List Software × Store × List SyncEvent →
      Except Unit (List Software × Store × List SyncEvent)
  | [], acc => .ok acc
  | file :: rest, (allData, s, evs) => do
      let url := basePath ++ file
      let evs := evs ++ [.fetched url]
      let data ← fetchJSONE shards url
      match data with
      | some (.arr xs) =>
          let ts := manifestTs entries file
          softwareLoopE shards basePath entries rest
            (allData ++ xs, setMeta (metaKey "software" file) ts s,
              evs ++ [.wroteMeta (metaKey "software" file) ts])
      | _ => softwareLoopE shards basePath entries rest (allData, s, evs)

/-- `ensureCategoryUpdated` in the rejection monad (store operations
assumed to succeed, fetch-side rejections modelled). -/
def ensureCategoryUpdatedE (net : NetworkState) (manifest : DataManifest)
    (category : String) (s : Store) : Except Unit (Store × List SyncEvent) := do
  let entries := if category = "singer" then manifest.singers else manifest.softwares
  let basePath := if category = "singer" then "/data/singers/" else "/data/softwares/"
  let changedFiles := computeChanged category s entries
  if changedFiles.length = 0 then return (s, [])
  else if category = "singer" then
    match ← singerLoopE net.singerShards basePath entries changedFiles ([], s, []) with
    | (allData, s1, evs) =>
        if allData.length = 0 then return (s1, evs)
        else return (putSingers allData s1, evs ++ [.wroteSingers allData])
  else
    match ← softwareLoopE net.softwareShards basePath entries changedFiles ([], s, []) with
    | (allData, s1, evs) =>
        if allData.length = 0 then return (s1, evs)
        else return (putSoftwares allData s1, evs ++ [.wroteSoftwares allData])

/-! ## Lemmas about the Persistent Store primitives -/

theorem idbGet_idbPut_same {α : Type} (m : List (String × α)) (k : String) (v : α) :
    idbGet (idbPut m k v) k = some v := by
  induction m with
  | nil => simp [idbPut, idbGet]
  | cons p rest ih =>
      obtain ⟨k', v'⟩ := p
      by_cases h : k' = k
      · simp [idbPut, idbGet, h]
      · simp [idbPut, idbGet, h, ih]

theorem idbGet_idbPut_ne {α : Type} (m : List (String × α)) (k k' : String) (v : α)
    (h : k' ≠ k) : idbGet (idbPut m k v) k' = idbGet m k' := by
  induction m with
  | nil => simp [idbPut, idbGet, Ne.symm h]
  | cons p rest ih =>
      obtain ⟨k₀, v₀⟩ := p
      by_cases h₀ : k₀ = k
      · subst h₀
        simp [idbPut, idbGet, Ne.symm h]
      · simp [idbPut, idbGet, h₀, ih]

theorem idbGet_idbPutMany_notMem {α : Type} (key : α → String)
    (m : List (String × α)) (items : List α) (k : String)
    (h : ∀ it ∈ items, key it ≠ k) :
    idbGet (idbPutMany key m items) k = idbGet m k := by
  induction items generalizing m with
  | nil => rfl
  | cons x rest ih =>
      have hx : key x ≠ k := h x (List.mem_cons_self _ _)
      have hrest : ∀ it ∈ rest, key it ≠ k := fun it hit => h it (List.mem_cons_of_mem _ hit)
      calc idbGet (idbPutMany key m (x :: rest)) k
          = idbGet (idbPutMany key (idbPut m (key x) x) rest) k := rfl
        _ = idbGet (idbPut m (key x) x) k := ih _ hrest
        _ = idbGet m k := idbGet_idbPut_ne _ _ _ _ (fun hk => hx hk.symm)

theorem idbGet_idbPutMany_mem {α : Type} (key : α → String)
    (m : List (String × α)) (items : List α) (r : α)
    (hnd : (items.map key).Nodup) (hr : r ∈ items) :
    idbGet (idbPutMany key m items) (key r) = some r := by
  induction items generalizing m with
  | nil => cases hr
  | cons x rest ih =>
      rcases List.mem_cons.mp hr with h | h
      · subst h
        have hnotin : ∀ it ∈ rest, key it ≠ key r := by
          intro it hit heq
          have : key r ∈ rest.map key := heq ▸ List.mem_map_of_mem key hit
          exact (List.nodup_cons.mp hnd).1 this
        calc idbGet (idbPutMany key m (r :: rest)) (key r)
            = idbGet (idbPutMany key (idbPut m (key r) r) rest) (key r) := rfl
          _ = idbGet (idbPut m (key r) r) (key r) := idbGet_idbPutMany_notMem _ _ _ _ hnotin
          _ = some r := idbGet_idbPut_same _ _ _
      · exact ih _ (List.nodup_cons.mp hnd).2 h

theorem idbGet_append {α : Type} (m m' : List (String × α)) (k : String) :
    idbGet (m ++ m') k =
      (match idbGet m k with
       | some v => some v
       | none => idbGet m' k) := by
  induction m with
  | nil => simp [idbGet]
  | cons p rest ih =>
      obtain ⟨k₀, v₀⟩ := p
      by_cases h : k₀ = k
      · simp [idbGet, h]
      · simp [idbGet, h, ih]

theorem idbPut_eq_append {α : Type} (m : List (String × α)) (k : String) (v : α)
    (h : idbGet m k = none) : idbPut m k v = m ++ [(k, v)] := by
  induction m with
  | nil => rfl
  | cons p rest ih =>
      obtain ⟨k₀, v₀⟩ := p
      by_cases h₀ : k₀ = k
      · simp [idbGet, h₀] at h
      · simp [idbGet, h₀] at h
        simp [idbPut, h₀, ih h]

theorem idbPutMany_eq_append {α : Type} (key : α → String)
    (m : List (String × α)) (items : List α)
    (hnd : (items.map key).Nodup) (h : ∀ it ∈ items, idbGet m (key it) = none) :
    idbPutMany key m items = m ++ items.map (fun it => (key it, it)) := by
  induction items generalizing m with
  | nil => simp [idbPutMany]
  | cons x rest ih =>
      have hx : idbGet m (key x) = none := h x (List.mem_cons_self _ _)
      have step : idbPutMany key m (x :: rest)
          = idbPutMany key (m ++ [(key x, x)]) rest := by
        show idbPutMany key (idbPut m (key x) x) rest = _
        rw [idbPut_eq_append _ _ _ hx]
      rw [step, ih (m ++ [(key x, x)]) (List.nodup_cons.mp hnd).2]
      · simp
      · intro it hit
        rw [idbGet_append, h it (List.mem_cons_of_mem _ hit)]
        have hne : key x ≠ key it := by
          intro heq
          have : key x ∈ rest.map key := heq ▸ List.mem_map_of_mem key hit
          exact (List.nodup_cons.mp hnd).1 this
        simp [idbGet, hne]

theorem getMeta_setMeta_same (k : String) (v : Int) (s : Store) :
    getMeta k (setMeta k v s) = some v :=
  idbGet_idbPut_same _ _ _

theorem getMeta_setMeta_ne (k k' : String) (v : Int) (s : Store) (h : k' ≠ k) :
    getMeta k' (setMeta k v s) = getMeta k' s :=
  idbGet_idbPut_ne _ _ _ _ h

theorem getMeta_putSingers (k : String) (items : List Singer) (s : Store) :
    getMeta k (putSingers items s) = getMeta k s := rfl

theorem getMeta_putSoftwares (k : String) (items : List Software) (s : Store) :
    getMeta k (putSoftwares items s) = getMeta k s := rfl

theorem putSingers_singers_store (items : List Singer) (s : Store) :
    (putSingers items s).singers = idbPutMany Singer.id s.singers items := rfl

theorem setMeta_singers (k : String) (v : Int) (s : Store) :
    (setMeta k v s).singers = s.singers := rfl

theorem setMeta_softwares (k : String) (v : Int) (s : Store) :
    (setMeta k v s).softwares = s.softwares := rfl

theorem putSingers_softwares (items : List Singer) (s : Store) :
    (putSingers items s).softwares = s.softwares := rfl

theorem putSoftwares_singers (items : List Software) (s : Store) :
    (putSoftwares items s).singers = s.singers := rfl

/-! ## Lemmas about metadata keys -/

theorem string_append_left_cancel {s t u : String} (h : s ++ t = s ++ u) : t = u := by
  have hd : s.data ++ t.data = s.data ++ u.data := by
    have := congrArg String.data h
    simpa using this
  have hdata : t.data = u.data := List.append_cancel_left hd
  cases t; cases u
  exact congrArg String.mk hdata

theorem metaKey_inj (c f g : String) (h : metaKey c f = metaKey c g) : f = g :=
  string_append_left_cancel (s := c ++ ":file:") h

/-! ## Lemmas about the event trace -/

theorem fetchedUrls_append (a b : List SyncEvent) :
    fetchedUrls (a ++ b) = fetchedUrls a ++ fetchedUrls b := by
  induction a with
  | nil => rfl
  | cons e rest ih => cases e <;> simp [fetchedUrls, ih]

/-! ## Lemmas about the changed-files pass -/

theorem computeChanged_eq_filter (category : String) (s : Store)
    (entries : List DataManifestEntry) :
    computeChanged category s entries
      = (entries.filter (fun e =>
          decide ((getMeta (metaKey category e.file) s).getD (-1) < e.ts))).map
          DataManifestEntry.file := by
  induction entries with
  | nil => rfl
  | cons e rest ih =>
      by_cases h : (getMeta (metaKey category e.file) s).getD (-1) < e.ts
      · simp [computeChanged, List.filter_cons, h, ih]
      · simp [computeChanged, List.filter_cons, h, ih]

theorem mem_computeChanged (category : String) (s : Store)
    (entries : List DataManifestEntry) (f : String) :
    f ∈ computeChanged category s entries
      ↔ ∃ e ∈ entries, e.file = f ∧
          (getMeta (metaKey category e.file) s).getD (-1) < e.ts := by
  rw [computeChanged_eq_filter]
  simp only [List.mem_map, List.mem_filter, decide_eq_true_eq]
  constructor
  · rintro ⟨e, ⟨he, hlt⟩, hf⟩
    exact ⟨e, he, hf, hlt⟩
  · rintro ⟨e, he, hf, hlt⟩
    exact ⟨e, ⟨he, hlt⟩, hf⟩

theorem computeChanged_nodup (category : String) (s : Store)
    (entries : List DataManifestEntry)
    (hnd : (entries.map DataManifestEntry.file).Nodup) :
    (computeChanged category s entries).Nodup := by
  rw [computeChanged_eq_filter]
  exact ((List.filter_sublist _).map DataManifestEntry.file).nodup hnd

theorem find?_entry_of_nodup (entries : List DataManifestEntry)
    (e : DataManifestEntry)
    (hnd : (entries.map DataManifestEntry.file).Nodup) (he : e ∈ entries) :
    entries.find? (fun e' => e'.file == e.file) = some e := by
  induction entries with
  | nil => cases he
  | cons x rest ih =>
      rcases List.mem_cons.mp he with h | h
      · subst h
        simp [List.find?]
      · have hne : x.file ≠ e.file := by
          intro heq
          have : x.file ∈ rest.map DataManifestEntry.file :=
            heq ▸ List.mem_map_of_mem DataManifestEntry.file h
          exact (List.nodup_cons.mp hnd).1 this
        have hbeq : (x.file == e.file) = false := by simpa using hne
        simp only [List.find?, hbeq]
        exact ih (List.nodup_cons.mp hnd).2 h

theorem manifestTs_of_nodup (entries : List DataManifestEntry)
    (e : DataManifestEntry)
    (hnd : (entries.map DataManifestEntry.file).Nodup) (he : e ∈ entries) :
    manifestTs entries e.file = e.ts := by
  rw [manifestTs, find?_entry_of_nodup entries e hnd he]

/-! ## Lemmas about the per-shard fetch/merge loops -/

theorem singerLoop_singers (shards : String → FetchResult Singer)
    (basePath : String) (entries : List DataManifestEntry)
    (files : List String) (allData : List Singer) (s : Store)
    (evs : List SyncEvent) :
    ((singerLoop shards basePath entries files (allData, s, evs)).2.1).singers
      = s.singers := by
  induction files generalizing allData s evs with
  | nil => rfl
  | cons f rest ih =>
      simp only [singerLoop]
      cases hf : fetchJSON shards (basePath ++ f) with
      | none => exact ih _ _ _
      | some p =>
          cases p with
          | arr xs => exact ih _ _ _
          | nonArray t => exact ih _ _ _

theorem softwareLoop_softwares (shards : String → FetchResult Software)
    (basePath : String) (entries : List DataManifestEntry)
    (files : List String) (allData : List Software) (s : Store)
    (evs : List SyncEvent) :
    ((softwareLoop shards basePath entries files (allData, s, evs)).2.1).softwares
      = s.softwares := by
  induction files generalizing allData s evs with
  | nil => rfl
  | cons f rest ih =>
      simp only [softwareLoop]
      cases hf : fetchJSON shards (basePath ++ f) with
      | none => exact ih _ _ _
      | some p =>
          cases p with
          | arr xs => exact ih _ _ _
          | nonArray t => exact ih _ _ _

theorem softwareLoop_singers (shards : String → FetchResult Software)
    (basePath : String) (entries : List DataManifestEntry)
    (files : List String) (allData : List Software) (s : Store)
    (evs : List SyncEvent) :
    ((softwareLoop shards basePath entries files (allData, s, evs)).2.1).singers
      = s.singers := by
  induction files generalizing allData s evs with
  | nil => rfl
  | cons f rest ih =>
      simp only [softwareLoop]
      cases hf : fetchJSON shards (basePath ++ f) with
      | none => exact ih _ _ _
      | some p =>
          cases p with
          | arr xs => exact ih _ _ _
          | nonArray t => exact ih _ _ _

theorem singerLoop_fetchedUrls (shards : String → FetchResult Singer)
    (basePath : String) (entries : List DataManifestEntry)
    (files : List String) (allData : List Singer) (s : Store)
    (evs : List SyncEvent) :
    fetchedUrls ((singerLoop shards basePath entries files (allData, s, evs)).2.2)
      = fetchedUrls evs ++ files.map (fun f => basePath ++ f) := by
  induction files generalizing allData s evs with
  | nil => simp [singerLoop]
  | cons f rest ih =>
      simp only [singerLoop]
      cases hf : fetchJSON shards (basePath ++ f) with
      | none => simp [ih, fetchedUrls_append, fetchedUrls]
      | some p =>
          cases p with
          | arr xs => simp [ih, fetchedUrls_append, fetchedUrls]
          | nonArray t => simp [ih, fetchedUrls_append, fetchedUrls]

theorem softwareLoop_fetchedUrls (shards : String → FetchResult Software)
    (basePath : String) (entries : List DataManifestEntry)
    (files : List String) (allData : List Software) (s : Store)
    (evs : List SyncEvent) :
    fetchedUrls ((softwareLoop shards basePath entries files (allData, s, evs)).2.2)
      = fetchedUrls evs ++ files.map (fun f => basePath ++ f) := by
  induction files generalizing allData s evs with
  | nil => simp [softwareLoop]
  | cons f rest ih =>
      simp only [softwareLoop]
      cases hf : fetchJSON shards (basePath ++ f) with
      | none => simp [ih, fetchedUrls_append, fetchedUrls]
      | some p =>
          cases p with
          | arr xs => simp [ih, fetchedUrls_append, fetchedUrls]
          | nonArray t => simp [ih, fetchedUrls_append, fetchedUrls]

theorem singerLoop_getMeta_frame (shards : String → FetchResult Singer)
    (basePath : String) (entries : List DataManifestEntry)
    (files : List String) (allData : List Singer) (s : Store)
    (evs : List SyncEvent) (k : String)
    (h : ∀ f ∈ files, fetchedArr shards (basePath ++ f) ≠ none →
      metaKey "singer" f ≠ k) :
    getMeta k (singerLoop shards basePath entries files (allData, s, evs)).2.1
      = getMeta k s := by
  induction files generalizing allData s evs with
  | nil => rfl
  | cons f rest ih =>
      have hrest : ∀ f' ∈ rest, fetchedArr shards (basePath ++ f') ≠ none →
          metaKey "singer" f' ≠ k :=
        fun f' hf' => h f' (List.mem_cons_of_mem _ hf')
      simp only [singerLoop]
      cases hf : fetchJSON shards (basePath ++ f) with
      | none => exact ih _ _ _ hrest
      | some p =>
          cases p with
          | arr xs =>
              have hk : metaKey "singer" f ≠ k := by
                apply h f (List.mem_cons_self _ _)
                simp [fetchedArr, hf]
              rw [ih _ _ _ hrest, getMeta_setMeta_ne _ _ _ _ (fun hkk => hk hkk.symm)]
          | nonArray t => exact ih _ _ _ hrest

theorem softwareLoop_getMeta_frame (shards : String → FetchResult Software)
    (basePath : String) (entries : List DataManifestEntry)
    (files : List String) (allData : List Software) (s : Store)
    (evs : List SyncEvent) (k : String)
    (h : ∀ f ∈ files, fetchedArr shards (basePath ++ f) ≠ none →
      metaKey "software" f ≠ k) :
    getMeta k (softwareLoop shards basePath entries files (allData, s, evs)).2.1
      = getMeta k s := by
  induction files generalizing allData s evs with
  | nil => rfl
  | cons f rest ih =>
      have hrest : ∀ f' ∈ rest, fetchedArr shards (basePath ++ f') ≠ none →
          metaKey "software" f' ≠ k :=
        fun f' hf' => h f' (List.mem_cons_of_mem _ hf')
      simp only [softwareLoop]
      cases hf : fetchJSON shards (basePath ++ f) with
      | none => exact ih _ _ _ hrest
      | some p =>
          cases p with
          | arr xs =>
              have hk : metaKey "software" f ≠ k := by
                apply h f (List.mem_cons_self _ _)
                simp [fetchedArr, hf]
              rw [ih _ _ _ hrest, getMeta_setMeta_ne _ _ _ _ (fun hkk => hk hkk.symm)]
          | nonArray t => exact ih _ _ _ hrest

theorem singerLoop_getMeta_written (shards : String → FetchResult Singer)
    (basePath : String) (entries : List DataManifestEntry)
    (files : List String) (allData : List Singer) (s : Store)
    (evs : List SyncEvent) (f : String) (xs : List Singer)
    (hnd : files.Nodup) (hf : f ∈ files)
    (hfetch : fetchedArr shards (basePath ++ f) = some xs) :
    getMeta (metaKey "singer" f)
        (singerLoop shards basePath entries files (allData, s, evs)).2.1
      = some (manifestTs entries f) := by
  induction files generalizing allData s evs with
  | nil => cases hf
  | cons g rest ih =>
      rcases List.mem_cons.mp hf with hgf | hgf
      · subst hgf
        have harr : fetchJSON shards (basePath ++ f) = some (.arr xs) := by
          revert hfetch
          unfold fetchedArr
          cases hj : fetchJSON shards (basePath ++ f) with
          | none => simp
          | some p =>
              cases p with
              | arr ys => simp
              | nonArray t => simp
        simp only [singerLoop, harr]
        have hnotin : ∀ f' ∈ rest, fetchedArr shards (basePath ++ f') ≠ none →
            metaKey "singer" f' ≠ metaKey "singer" f := by
          intro f' hf' _ heq
          have : f' = f := metaKey_inj _ _ _ heq
          exact (List.nodup_cons.mp hnd).1 (this ▸ hf')
        rw [singerLoop_getMeta_frame _ _ _ _ _ _ _ _ hnotin,
          getMeta_setMeta_same]
      · simp only [singerLoop]
        cases hj : fetchJSON shards (basePath ++ g) with
        | none => exact ih _ _ _ (List.nodup_cons.mp hnd).2 hgf
        | some p =>
            cases p with
            | arr ys => exact ih _ _ _ (List.nodup_cons.mp hnd).2 hgf
            | nonArray t => exact ih _ _ _ (List.nodup_cons.mp hnd).2 hgf

theorem softwareLoop_getMeta_written (shards : String → FetchResult Software)
    (basePath : String) (entries : List DataManifestEntry)
    (files : List String) (allData : List Software) (s : Store)
    (evs : List SyncEvent) (f : String) (xs : List Software)
    (hnd : files.Nodup) (hf : f ∈ files)
    (hfetch : fetchedArr shards (basePath ++ f) = some xs) :
    getMeta (metaKey "software" f)
        (softwareLoop shards basePath entries files (allData, s, evs)).2.1
      = some (manifestTs entries f) := by
  induction files generalizing allData s evs with
  | nil => cases hf
  | cons g rest ih =>
      rcases List.mem_cons.mp hf with hgf | hgf
      · subst hgf
        have harr : fetchJSON shards (basePath ++ f) = some (.arr xs) := by
          revert hfetch
          unfold fetchedArr
          cases hj : fetchJSON shards (basePath ++ f) with
          | none => simp
          | some p =>
              cases p with
              | arr ys => simp
              | nonArray t => simp
        simp only [softwareLoop, harr]
        have hnotin : ∀ f' ∈ rest, fetchedArr shards (basePath ++ f') ≠ none →
            metaKey "software" f' ≠ metaKey "software" f := by
          intro f' hf' _ heq
          have : f' = f := metaKey_inj _ _ _ heq
          exact (List.nodup_cons.mp hnd).1 (this ▸ hf')
        rw [softwareLoop_getMeta_frame _ _ _ _ _ _ _ _ hnotin,
          getMeta_setMeta_same]
      · simp only [softwareLoop]
        cases hj : fetchJSON shards (basePath ++ g) with
        | none => exact ih _ _ _ (List.nodup_cons.mp hnd).2 hgf
        | some p =>
            cases p with
            | arr ys => exact ih _ _ _ (List.nodup_cons.mp hnd).2 hgf
            | nonArray t => exact ih _ _ _ (List.nodup_cons.mp hnd).2 hgf

/-! ## The rejection-monad semantics agrees with the total semantics -/

theorem fetchJSONE_eq_ok {α : Type} (shards : String → FetchResult α)
    (url : String) : fetchJSONE shards url = .ok (fetchJSON shards url) := by
  unfold fetchJSONE fetchJSON
  cases fetchJSONBody shards url <;> rfl

theorem singerLoopE_eq_ok (shards : String → FetchResult Singer)
    (basePath : String) (entries : List DataManifestEntry)
    (files : List String) (acc : List Singer × Store × List SyncEvent) :
    singerLoopE shards basePath entries files acc
      = .ok (singerLoop shards basePath entries files acc) := by
  induction files generalizing acc with
  | nil => rfl
  | cons f rest ih =>
      obtain ⟨allData, s, evs⟩ := acc
      simp only [singerLoopE, singerLoop, fetchJSONE_eq_ok, bind, Except.bind]
      cases hf : fetchJSON shards (basePath ++ f) with
      | none => exact ih _
      | some p =>
          cases p with
          | arr xs => exact ih _
          | nonArray t => exact ih _

theorem softwareLoopE_eq_ok (shards : String → FetchResult Software)
    (basePath : String) (entries : List DataManifestEntry)
    (files : List String) (acc : List Software × Store × List SyncEvent) :
    softwareLoopE shards basePath entries files acc
      = .ok (softwareLoop shards basePath entries files acc) := by
  induction files generalizing acc with
  | nil => rfl
  | cons f rest ih =>
      obtain ⟨allData, s, evs⟩ := acc
      simp only [softwareLoopE, softwareLoop, fetchJSONE_eq_ok, bind, Except.bind]
      cases hf : fetchJSON shards (basePath ++ f) with
      | none => exact ih _
      | some p =>
          cases p with
          | arr xs => exact ih _
          | nonArray t => exact ih _

theorem ensureCategoryUpdatedE_eq_ok (net : NetworkState)
    (manifest : DataManifest) (category : String) (s : Store) :
    ensureCategoryUpdatedE net manifest category s
      = .ok (ensureCategoryUpdated net manifest category s) := by
  by_cases hc : category = "singer"
  · subst hc
    unfold ensureCategoryUpdatedE ensureCategoryUpdated
    simp only [singerLoopE_eq_ok, bind, Except.bind, pure, Except.pure, reduceIte]
    by_cases h0 : (computeChanged "singer" s manifest.singers).length = 0
    · simp [h0]
    · simp only [h0, if_false]
      cases hL : singerLoop net.singerShards "/data/singers/" manifest.singers
          (computeChanged "singer" s manifest.singers) ([], s, []) with
      | mk allData r =>
          cases r with
          | mk s1 evs => split <;> rfl
  · unfold ensureCategoryUpdatedE ensureCategoryUpdated
    simp only [hc, if_false, softwareLoopE_eq_ok, bind, Except.bind, pure,
      Except.pure]
    by_cases h0 : (computeChanged category s manifest.softwares).length = 0
    · simp [h0]
    · simp only [h0, if_false]
      cases hL : softwareLoop net.softwareShards "/data/softwares/" manifest.softwares
          (computeChanged category s manifest.softwares) ([], s, []) with
      | mk allData r =>
          cases r with
          | mk s1 evs => split <;> rfl

/-! ## Lemmas about whole `ensureCategoryUpdated` runs -/

theorem fetchedArr_eq_some {α : Type} (shards : String → FetchResult α)
    (url : String) (xs : List α) :
    fetchedArr shards url = some xs ↔ fetchJSON shards url = some (.arr xs) := by
  unfold fetchedArr
  cases h : fetchJSON shards url with
  | none => simp
  | some p =>
      cases p with
      | arr ys => simp
      | nonArray t => simp

theorem ensureCategoryUpdated_fastpath (net : NetworkState)
    (manifest : DataManifest) (category : String) (s : Store)
    (h : computeChanged category s
      (if category = "singer" then manifest.singers else manifest.softwares) = []) :
    ensureCategoryUpdated net manifest category s = (s, []) := by
  unfold ensureCategoryUpdated
  simp [h]

theorem ensureCategoryUpdated_singer_getMeta_frame (net : NetworkState)
    (manifest : DataManifest) (s : Store) (k : String)
    (h : ∀ f ∈ computeChanged "singer" s manifest.singers,
      fetchedArr net.singerShards ("/data/singers/" ++ f) ≠ none →
      metaKey "singer" f ≠ k) :
    getMeta k (ensureCategoryUpdated net manifest "singer" s).1 = getMeta k s := by
  unfold ensureCategoryUpdated
  simp only [reduceIte]
  by_cases h0 : (computeChanged "singer" s manifest.singers).length = 0
  · simp [h0]
  · simp only [h0, if_false]
    cases hL : singerLoop net.singerShards "/data/singers/" manifest.singers
        (computeChanged "singer" s manifest.singers) ([], s, []) with
    | mk allData r =>
        cases r with
        | mk s1 evs =>
            have hmeta : getMeta k s1 = getMeta k s := by
              have hfr := singerLoop_getMeta_frame net.singerShards "/data/singers/"
                manifest.singers (computeChanged "singer" s manifest.singers)
                [] s [] k h
              rw [hL] at hfr
              exact hfr
            split
            · exact hmeta
            · rw [getMeta_putSingers]
              exact hmeta

theorem ensureCategoryUpdated_nonsinger_getMeta_frame (net : NetworkState)
    (manifest : DataManifest) (category : String) (s : Store) (k : String)
    (hc : category ≠ "singer")
    (h : ∀ f ∈ computeChanged category s manifest.softwares,
      fetchedArr net.softwareShards ("/data/softwares/" ++ f) ≠ none →
      metaKey "software" f ≠ k) :
    getMeta k (ensureCategoryUpdated net manifest category s).1 = getMeta k s := by
  unfold ensureCategoryUpdated
  simp only [hc, if_false]
  by_cases h0 : (computeChanged category s manifest.softwares).length = 0
  · simp [h0]
  · simp only [h0, if_false]
    cases hL : softwareLoop net.softwareShards "/data/softwares/" manifest.softwares
        (computeChanged category s manifest.softwares) ([], s, []) with
    | mk allData r =>
        cases r with
        | mk s1 evs =>
            have hmeta : getMeta k s1 = getMeta k s := by
              have hfr := softwareLoop_getMeta_frame net.softwareShards "/data/softwares/"
                manifest.softwares (computeChanged category s manifest.softwares)
                [] s [] k h
              rw [hL] at hfr
              exact hfr
            split
            · exact hmeta
            · rw [getMeta_putSoftwares]
              exact hmeta

theorem ensureCategoryUpdated_singer_getMeta_written (net : NetworkState)
    (manifest : DataManifest) (s : Store) (f : String) (xs : List Singer)
    (hnd : (manifest.singers.map DataManifestEntry.file).Nodup)
    (hf : f ∈ computeChanged "singer" s manifest.singers)
    (hx : fetchedArr net.singerShards ("/data/singers/" ++ f) = some xs) :
    getMeta (metaKey "singer" f) (ensureCategoryUpdated net manifest "singer" s).1
      = some (manifestTs manifest.singers f) := by
  unfold ensureCategoryUpdated
  simp only [reduceIte]
  have h0 : ¬(computeChanged "singer" s manifest.singers).length = 0 := by
    intro hlen
    rw [List.length_eq_zero.mp hlen] at hf
    cases hf
  simp only [h0, if_false]
  cases hL : singerLoop net.singerShards "/data/singers/" manifest.singers
      (computeChanged "singer" s manifest.singers) ([], s, []) with
  | mk allData r =>
      cases r with
      | mk s1 evs =>
          have hmeta : getMeta (metaKey "singer" f) s1
              = some (manifestTs manifest.singers f) := by
            have hw := singerLoop_getMeta_written net.singerShards "/data/singers/"
              manifest.singers (computeChanged "singer" s manifest.singers)
              [] s [] f xs (computeChanged_nodup _ _ _ hnd) hf hx
            rw [hL] at hw
            exact hw
          split
          · exact hmeta
          · rw [getMeta_putSingers]
            exact hmeta

theorem ensureCategoryUpdated_nonsinger_getMeta_written (net : NetworkState)
    (manifest : DataManifest) (category : String) (s : Store) (f : String)
    (xs : List Software) (hc : category ≠ "singer")
    (hnd : (manifest.softwares.map DataManifestEntry.file).Nodup)
    (hf : f ∈ computeChanged category s manifest.softwares)
    (hx : fetchedArr net.softwareShards ("/data/softwares/" ++ f) = some xs) :
    getMeta (metaKey "software" f) (ensureCategoryUpdated net manifest category s).1
      = some (manifestTs manifest.softwares f) := by
  unfold ensureCategoryUpdated
  simp only [hc, if_false]
  have h0 : ¬(computeChanged category s manifest.softwares).length = 0 := by
    intro hlen
    rw [List.length_eq_zero.mp hlen] at hf
    cases hf
  simp only [h0, if_false]
  cases hL : softwareLoop net.softwareShards "/data/softwares/" manifest.softwares
      (computeChanged category s manifest.softwares) ([], s, []) with
  | mk allData r =>
      cases r with
      | mk s1 evs =>
          have hmeta : getMeta (metaKey "software" f) s1
              = some (manifestTs manifest.softwares f) := by
            have hw := softwareLoop_getMeta_written net.softwareShards "/data/softwares/"
              manifest.softwares (computeChanged category s manifest.softwares)
              [] s [] f xs (computeChanged_nodup _ _ _ hnd) hf hx
            rw [hL] at hw
            exact hw
          split
          · exact hmeta
          · rw [getMeta_putSoftwares]
            exact hmeta

theorem ensureCategoryUpdated_singer_fetchedUrls (net : NetworkState)
    (manifest : DataManifest) (s : Store) :
    fetchedUrls (ensureCategoryUpdated net manifest "singer" s).2
      = (computeChanged "singer" s manifest.singers).map
          (fun f => "/data/singers/" ++ f) := by
  unfold ensureCategoryUpdated
  simp only [reduceIte]
  by_cases h0 : (computeChanged "singer" s manifest.singers).length = 0
  · rw [List.length_eq_zero.mp h0]
    simp [h0, List.length_eq_zero.mp h0, fetchedUrls]
  · simp only [h0, if_false]
    cases hL : singerLoop net.singerShards "/data/singers/" manifest.singers
        (computeChanged "singer" s manifest.singers) ([], s, []) with
    | mk allData r =>
        cases r with
        | mk s1 evs =>
            have hurls : fetchedUrls evs
                = (computeChanged "singer" s manifest.singers).map
                    (fun f => "/data/singers/" ++ f) := by
              have hu := singerLoop_fetchedUrls net.singerShards "/data/singers/"
                manifest.singers (computeChanged "singer" s manifest.singers) [] s []
              rw [hL] at hu
              simpa [fetchedUrls] using hu
            split
            · exact hurls
            · rw [fetchedUrls_append, hurls]
              simp [fetchedUrls]

theorem ensureCategoryUpdated_nonsinger_fetchedUrls (net : NetworkState)
    (manifest : DataManifest) (category : String) (s : Store)
    (hc : category ≠ "singer") :
    fetchedUrls (ensureCategoryUpdated net manifest category s).2
      = (computeChanged category s manifest.softwares).map
          (fun f => "/data/softwares/" ++ f) := by
  unfold ensureCategoryUpdated
  simp only [hc, if_false]
  by_cases h0 : (computeChanged category s manifest.softwares).length = 0
  · rw [List.length_eq_zero.mp h0]
    simp [h0, List.length_eq_zero.mp h0, fetchedUrls]
  · simp only [h0, if_false]
    cases hL : softwareLoop net.softwareShards "/data/softwares/" manifest.softwares
        (computeChanged category s manifest.softwares) ([], s, []) with
    | mk allData r =>
        cases r with
        | mk s1 evs =>
            have hurls : fetchedUrls evs
                = (computeChanged category s manifest.softwares).map
                    (fun f => "/data/softwares/" ++ f) := by
              have hu := softwareLoop_fetchedUrls net.softwareShards "/data/softwares/"
                manifest.softwares (computeChanged category s manifest.softwares) [] s []
              rw [hL] at hu
              simpa [fetchedUrls] using hu
            split
            · exact hurls
            · rw [fetchedUrls_append, hurls]
              simp [fetchedUrls]

theorem ensureCategoryUpdated_nonsinger_singers (net : NetworkState)
    (manifest : DataManifest) (category : String) (s : Store)
    (hc : category ≠ "singer") :
    ((ensureCategoryUpdated net manifest category s).1).singers = s.singers := by
  unfold ensureCategoryUpdated
  simp only [hc, if_false]
  by_cases h0 : (computeChanged category s manifest.softwares).length = 0
  · simp [h0]
  · simp only [h0, if_false]
    cases hL : softwareLoop net.softwareShards "/data/softwares/" manifest.softwares
        (computeChanged category s manifest.softwares) ([], s, []) with
    | mk allData r =>
        cases r with
        | mk s1 evs =>
            have hs : s1.singers = s.singers := by
              have hfr := softwareLoop_singers net.softwareShards "/data/softwares/"
                manifest.softwares (computeChanged category s manifest.softwares) [] s []
              rw [hL] at hfr
              exact hfr
            split
            · exact hs
            · rw [putSoftwares_singers]
              exact hs

/-! ## The claims -/

/-- **C2** (amended): for every category, store and manifest entry list, the
changed/unchanged classification pass of `ensureCategoryUpdated` marks an
entry as changed exactly when its manifest timestamp is strictly greater
than the stored sync-metadata timestamp for the shard, where an absent
metadata entry behaves as the timestamp `-1` (so a never-synced shard is
classified changed for every manifest timestamp greater than `-1`, in
particular every nonnegative epoch timestamp); an equal timestamp is
unchanged. -/
theorem c2_changed_iff_manifest_gt_stored (category : String) (s : Store)
    (entries : List DataManifestEntry) :
    computeChanged category s entries
      = (entries.filter (fun e =>
          match getMeta (metaKey category e.file) s with
          | some saved => decide (saved < e.ts)
          | none => decide ((-1 : Int) < e.ts))).map DataManifestEntry.file := by
  induction entries with
  | nil => rfl
  | cons e rest ih =>
      cases h : getMeta (metaKey category e.file) s with
      | none =>
          by_cases hlt : (-1 : Int) < e.ts <;>
            simp [computeChanged, h, hlt, List.filter_cons, ih]
      | some saved =>
          by_cases hlt : saved < e.ts <;>
            simp [computeChanged, h, hlt, List.filter_cons, ih]

/-- A concrete singer record used by the counterexamples and witnesses. -/
def singerA : Singer :=
  { id := "a-singer"
    names := [("en", "A Singer")]
    owners := ["owner1"]
    authors := ["author1"]
    homepage_url := none
    profile_image_url := none
    variants := [{ id := "a-singer-v1"
                   names := [("en", "V1")]
                   download_url := some "https://example.com/a.zip"
                   manual_download_url := none
                   tags := none }] }

/-- A network serving `[singerA]` at `/data/singers/a.json` and failing
everywhere else. -/
def netA : NetworkState :=
  { singerShards := fun url =>
      if url = "/data/singers/a.json" then .value (.arr [singerA]) else .throws
    softwareShards := fun _ => .throws }

/-- **C2 counterexample**: a shard with *no* stored metadata and manifest
timestamp `-1` is NOT classified as changed (`-1 < -1` is false):
`ensureCategoryUpdated` takes the fast path, fetching nothing, even though
the shard was never synced.  This refutes "a shard with no stored metadata
is always classified as changed, for any Manifest timestamp". -/
theorem c2_counterexample :
    computeChanged "singer" emptyStore [⟨"a.json", -1⟩] = [] ∧
    ensureCategoryUpdated netA ⟨[⟨"a.json", -1⟩], []⟩ "singer" emptyStore
      = (emptyStore, []) := by
  exact ⟨rfl, rfl⟩

/-- **C8**: for every category, manifest, store and pattern of fetch-side
failures (network rejection, non-2xx status, JSON-parse rejection),
`ensureCategoryUpdated` resolves normally — its rejection-monad semantics
always returns `.ok` with the same result as the total semantics — because
every fetch-side rejection is caught inside `fetchJSON` and mapped to
`undefined`.  (Store operations are modelled as succeeding; only they
could make the call reject.) -/
theorem c8_resolves_normally :
    (∀ (net : NetworkState) (manifest : DataManifest) (category : String)
        (s : Store),
      ensureCategoryUpdatedE net manifest category s
        = .ok (ensureCategoryUpdated net manifest category s)) ∧
    (∀ (α : Type) (shards : String → FetchResult α) (url : String),
      fetchJSONBody shards url = .error () → fetchJSON shards url = none) := by
  refine ⟨ensureCategoryUpdatedE_eq_ok, ?_⟩
  intro α shards url h
  unfold fetchJSON
  rw [h]

/-- **C8 witness**: the refinement at a concrete input, and a concrete
network error mapped to `undefined`. -/
theorem c8_witness :
    ensureCategoryUpdatedE netA ⟨[⟨"a.json", 5⟩], []⟩ "singer" emptyStore
      = .ok (ensureCategoryUpdated netA ⟨[⟨"a.json", 5⟩], []⟩ "singer" emptyStore) ∧
    fetchJSON (fun _ : String => (FetchResult.throws : FetchResult Singer)) "/x"
      = none :=
  ⟨c8_resolves_normally.1 netA ⟨[⟨"a.json", 5⟩], []⟩ "singer" emptyStore,
   c8_resolves_normally.2 Singer _ "/x" rfl⟩

/-- **C1 (code bug)**: with one changed shard (`a.json`, manifest timestamp
5) whose fetch succeeds with `[singerA]`, the event trace of
`ensureCategoryUpdated` is fetch, *then the metadata write, then the
batched record write*: the shard's sync-metadata timestamp is advanced
strictly BEFORE the batched write of its records into the store, contrary
to the claimed ordering. -/
theorem c1_meta_written_before_batch_write :
    (ensureCategoryUpdated netA ⟨[⟨"a.json", 5⟩], []⟩ "singer" emptyStore).2
      = [.fetched "/data/singers/a.json",
         .wroteMeta "singer:file:a.json" 5,
         .wroteSingers [singerA]] ∧
    ∃ pre mid post,
      (ensureCategoryUpdated netA ⟨[⟨"a.json", 5⟩], []⟩ "singer" emptyStore).2
        = pre ++ SyncEvent.wroteMeta "singer:file:a.json" 5
            :: mid ++ SyncEvent.wroteSingers [singerA] :: post :=
  ⟨rfl, [.fetched "/data/singers/a.json"], [], [], rfl⟩

/-- **C5**: a changed shard whose fetched payload is not a JSON array
(fetch rejected, non-2xx, unparseable/empty body, or a non-array JSON
value) is treated as a fetch failure: the per-shard loop step contributes
no records and no store write, only the fetch event; and over a whole
`ensureCategoryUpdated` call the shard's sync-metadata timestamp is left
exactly as it was. -/
theorem c5_nonarray_payload_treated_as_failure :
    (∀ (shards : String → FetchResult Singer) (basePath : String)
        (entries : List DataManifestEntry) (file : String) (rest : List String)
        (allData : List Singer) (s : Store) (evs : List SyncEvent),
      fetchedArr shards (basePath ++ file) = none →
      singerLoop shards basePath entries (file :: rest) (allData, s, evs)
        = singerLoop shards basePath entries rest
            (allData, s, evs ++ [.fetched (basePath ++ file)])) ∧
    (∀ (shards : String → FetchResult Software) (basePath : String)
        (entries : List DataManifestEntry) (file : String) (rest : List String)
        (allData : List Software) (s : Store) (evs : List SyncEvent),
      fetchedArr shards (basePath ++ file) = none →
      softwareLoop shards basePath entries (file :: rest) (allData, s, evs)
        = softwareLoop shards basePath entries rest
            (allData, s, evs ++ [.fetched (basePath ++ file)])) ∧
    (∀ (net : NetworkState) (manifest : DataManifest) (s : Store) (f : String),
      fetchedArr net.singerShards ("/data/singers/" ++ f) = none →
      getMeta (metaKey "singer" f) (ensureCategoryUpdated net manifest "singer" s).1
        = getMeta (metaKey "singer" f) s) ∧
    (∀ (net : NetworkState) (manifest : DataManifest) (category : String)
        (s : Store) (f : String), category ≠ "singer" →
      fetchedArr net.softwareShards ("/data/softwares/" ++ f) = none →
      getMeta (metaKey "software" f) (ensureCategoryUpdated net manifest category s).1
        = getMeta (metaKey "software" f) s) := by
  refine ⟨?_, ?_, ?_, ?_⟩
  · intro shards basePath entries file rest allData s evs hfail
    simp only [singerLoop]
    cases hj : fetchJSON shards (basePath ++ file) with
    | none => rfl
    | some p =>
        cases p with
        | arr ys =>
            rw [(fetchedArr_eq_some shards (basePath ++ file) ys).mpr hj] at hfail
            cases hfail
        | nonArray t => rfl
  · intro shards basePath entries file rest allData s evs hfail
    simp only [softwareLoop]
    cases hj : fetchJSON shards (basePath ++ file) with
    | none => rfl
    | some p =>
        cases p with
        | arr ys =>
            rw [(fetchedArr_eq_some shards (basePath ++ file) ys).mpr hj] at hfail
            cases hfail
        | nonArray t => rfl
  · intro net manifest s f hfail
    apply ensureCategoryUpdated_singer_getMeta_frame
    intro f' _ hok heq
    rcases metaKey_inj _ _ _ heq with rfl
    exact hok hfail
  · intro net manifest category s f hc hfail
    apply ensureCategoryUpdated_nonsinger_getMeta_frame net manifest category s _ hc
    intro f' _ hok heq
    rcases metaKey_inj _ _ _ heq with rfl
    exact hok hfail

/-- A network whose singer shard `b.json` serves a non-array JSON object
and whose other fetches reject. -/
def netBadPayload : NetworkState :=
  { singerShards := fun url =>
      if url = "/data/singers/b.json" then .value (.nonArray true) else .throws
    softwareShards := fun _ => .httpError }

/-- **C5 witness**: a non-array payload at a changed singer shard leaves
its metadata untouched, and the loop step at such a shard only records the
fetch. -/
theorem c5_witness :
    getMeta (metaKey "singer" "b.json")
        (ensureCategoryUpdated netBadPayload ⟨[⟨"b.json", 9⟩], []⟩ "singer"
          emptyStore).1
      = getMeta (metaKey "singer" "b.json") emptyStore ∧
    singerLoop netBadPayload.singerShards "/data/singers/" [⟨"b.json", 9⟩]
        ["b.json"] ([], emptyStore, [])
      = ([], emptyStore, [.fetched "/data/singers/b.json"]) :=
  ⟨c5_nonarray_payload_treated_as_failure.2.2.1 netBadPayload
      ⟨[⟨"b.json", 9⟩], []⟩ emptyStore "b.json" (by decide),
   c5_nonarray_payload_treated_as_failure.1 netBadPayload.singerShards
      "/data/singers/" [⟨"b.json", 9⟩] "b.json" [] [] emptyStore [] (by decide)⟩

/-- **C10**: `ensureCategoryUpdated` and `loadCategory` never validate the
category string: every category other than the exact string `"singer"` is
processed through the software branch — the changed-files pass reads the
manifest's `softwares` entries, every fetch goes to a
`/data/softwares/`-prefixed URL, the `singers` partition is untouched, and
`loadCategory` returns the softwares snapshot — instead of failing. -/
theorem c10_invalid_category_treated_as_software (net : NetworkState)
    (manifest : DataManifest) (category : String) (s : Store)
    (h : category ≠ "singer") :
    ((ensureCategoryUpdated net manifest category s).1).singers = s.singers ∧
    fetchedUrls (ensureCategoryUpdated net manifest category s).2
      = (computeChanged category s manifest.softwares).map
          (fun f => "/data/softwares/" ++ f) ∧
    (loadCategory net manifest category s).2.2
      = Sum.inr (getAllSoftwares (ensureCategoryUpdated net manifest category s).1) := by
  refine ⟨ensureCategoryUpdated_nonsinger_singers net manifest category s h,
    ensureCategoryUpdated_nonsinger_fetchedUrls net manifest category s h, ?_⟩
  unfold loadCategory
  simp [h]

/-- **C10 witness**: the invalid category `"xyz"` is processed through the
software branch at a concrete input. -/
theorem c10_witness :
    ((ensureCategoryUpdated netA ⟨[], [⟨"c.json", 3⟩]⟩ "xyz" emptyStore).1).singers
      = emptyStore.singers ∧
    fetchedUrls (ensureCategoryUpdated netA ⟨[], [⟨"c.json", 3⟩]⟩ "xyz" emptyStore).2
      = (computeChanged "xyz" emptyStore [⟨"c.json", 3⟩]).map
          (fun f => "/data/softwares/" ++ f) :=
  ⟨(c10_invalid_category_treated_as_software netA ⟨[], [⟨"c.json", 3⟩]⟩ "xyz"
      emptyStore (by decide)).1,
   (c10_invalid_category_treated_as_software netA ⟨[], [⟨"c.json", 3⟩]⟩ "xyz"
      emptyStore (by decide)).2.1⟩

/-- A network on which every fetch rejects. -/
def netFail : NetworkState :=
  { singerShards := fun _ => .throws, softwareShards := fun _ => .throws }

/-- **C3 counterexample**: with one changed shard whose fetch rejects, the
first `ensureCategoryUpdated` call leaves the store unchanged and advances
no metadata, so the *second* identical call fetches the shard again — one
network fetch, not zero — refuting the unconditional claim. -/
theorem c3_counterexample :
    (ensureCategoryUpdated netFail ⟨[⟨"a.json", 5⟩], []⟩ "singer" emptyStore).1
      = emptyStore ∧
    fetchedUrls (ensureCategoryUpdated netFail ⟨[⟨"a.json", 5⟩], []⟩ "singer"
        (ensureCategoryUpdated netFail ⟨[⟨"a.json", 5⟩], []⟩ "singer" emptyStore).1).2
      = ["/data/singers/a.json"] :=
  ⟨rfl, rfl⟩

/-- **C3 (amended)**: when every shard classified as changed is fetched
successfully (payload a JSON array) in the first call, and the manifest
lists each shard file once, the second call with an unchanged manifest
performs zero network fetches and returns the store exactly as the first
call left it — for both valid categories; and whenever no shard is
classified as changed, `ensureCategoryUpdated` returns immediately with no
fetch and no store modification.  (A shard whose fetch failed is
re-fetched by the second call, which is the retry behaviour of C4.) -/
theorem c3_second_sync_idempotent :
    (∀ (net net2 : NetworkState) (manifest : DataManifest) (s : Store),
      (manifest.singers.map DataManifestEntry.file).Nodup →
      (∀ f ∈ computeChanged "singer" s manifest.singers,
        fetchedArr net.singerShards ("/data/singers/" ++ f) ≠ none) →
      ensureCategoryUpdated net2 manifest "singer"
          (ensureCategoryUpdated net manifest "singer" s).1
        = ((ensureCategoryUpdated net manifest "singer" s).1, [])) ∧
    (∀ (net net2 : NetworkState) (manifest : DataManifest) (s : Store),
      (manifest.softwares.map DataManifestEntry.file).Nodup →
      (∀ f ∈ computeChanged "software" s manifest.softwares,
        fetchedArr net.softwareShards ("/data/softwares/" ++ f) ≠ none) →
      ensureCategoryUpdated net2 manifest "software"
          (ensureCategoryUpdated net manifest "software" s).1
        = ((ensureCategoryUpdated net manifest "software" s).1, [])) ∧
    (∀ (net : NetworkState) (manifest : DataManifest) (category : String)
        (s : Store),
      computeChanged category s
          (if category = "singer" then manifest.singers else manifest.softwares)
        = [] →
      ensureCategoryUpdated net manifest category s = (s, [])) := by
  have hsw : ("software" : String) ≠ "singer" := by decide
  refine ⟨?_, ?_, ensureCategoryUpdated_fastpath⟩
  · intro net net2 manifest s hnd hok
    have hchanged : computeChanged "singer"
        (ensureCategoryUpdated net manifest "singer" s).1 manifest.singers = [] := by
      rw [computeChanged_eq_filter]
      rw [List.filter_eq_nil_iff.mpr ?_]
      · rfl
      intro e he
      simp only [decide_eq_true_eq, not_lt]
      by_cases hch : e.file ∈ computeChanged "singer" s manifest.singers
      · obtain ⟨xs, hxs⟩ : ∃ xs,
            fetchedArr net.singerShards ("/data/singers/" ++ e.file) = some xs := by
          cases hfa : fetchedArr net.singerShards ("/data/singers/" ++ e.file) with
          | none => exact absurd hfa (hok _ hch)
          | some xs => exact ⟨xs, rfl⟩
        have hw := ensureCategoryUpdated_singer_getMeta_written net manifest s
          e.file xs hnd hch hxs
        have hts : manifestTs manifest.singers e.file = e.ts :=
          manifestTs_of_nodup _ e hnd he
        rw [hw, hts]
        simp
      · have hfr : getMeta (metaKey "singer" e.file)
            (ensureCategoryUpdated net manifest "singer" s).1
            = getMeta (metaKey "singer" e.file) s := by
          apply ensureCategoryUpdated_singer_getMeta_frame
          intro f' hf' _ heq
          exact hch (metaKey_inj _ _ _ heq ▸ hf')
        have hnc : ¬((getMeta (metaKey "singer" e.file) s).getD (-1) < e.ts) := by
          intro hlt
          exact hch ((mem_computeChanged _ _ _ _).mpr ⟨e, he, rfl, hlt⟩)
        rw [hfr]
        exact not_lt.mp hnc
    exact ensureCategoryUpdated_fastpath net2 manifest "singer" _ hchanged
  · intro net net2 manifest s hnd hok
    have hchanged : computeChanged "software"
        (ensureCategoryUpdated net manifest "software" s).1 manifest.softwares = [] := by
      rw [computeChanged_eq_filter]
      rw [List.filter_eq_nil_iff.mpr ?_]
      · rfl
      intro e he
      simp only [decide_eq_true_eq, not_lt]
      by_cases hch : e.file ∈ computeChanged "software" s manifest.softwares
      · obtain ⟨xs, hxs⟩ : ∃ xs,
            fetchedArr net.softwareShards ("/data/softwares/" ++ e.file) = some xs := by
          cases hfa : fetchedArr net.softwareShards ("/data/softwares/" ++ e.file) with
          | none => exact absurd hfa (hok _ hch)
          | some xs => exact ⟨xs, rfl⟩
        have hw := ensureCategoryUpdated_nonsinger_getMeta_written net manifest
          "software" s e.file xs hsw hnd hch hxs
        have hts : manifestTs manifest.softwares e.file = e.ts :=
          manifestTs_of_nodup _ e hnd he
        rw [hw, hts]
        simp
      · have hfr : getMeta (metaKey "software" e.file)
            (ensureCategoryUpdated net manifest "software" s).1
            = getMeta (metaKey "software" e.file) s := by
          apply ensureCategoryUpdated_nonsinger_getMeta_frame net manifest
            "software" s _ hsw
          intro f' hf' _ heq
          exact hch (metaKey_inj _ _ _ heq ▸ hf')
        have hnc : ¬((getMeta (metaKey "software" e.file) s).getD (-1) < e.ts) := by
          intro hlt
          exact hch ((mem_computeChanged _ _ _ _).mpr ⟨e, he, rfl, hlt⟩)
        rw [hfr]
        exact not_lt.mp hnc
    exact ensureCategoryUpdated_fastpath net2 manifest "software" _ hchanged

/-- **C3 witness**: with every changed shard fetched successfully, the
second identical sync is a no-op at a concrete input. -/
theorem c3_witness :
    ensureCategoryUpdated netA ⟨[⟨"a.json", 5⟩], []⟩ "singer"
        (ensureCategoryUpdated netA ⟨[⟨"a.json", 5⟩], []⟩ "singer" emptyStore).1
      = ((ensureCategoryUpdated netA ⟨[⟨"a.json", 5⟩], []⟩ "singer" emptyStore).1, []) :=
  c3_second_sync_idempotent.1 netA netA ⟨[⟨"a.json", 5⟩], []⟩ emptyStore
    (by decide) (by decide)

/-- **C4**: within one `ensureCategoryUpdated` call over two changed
shards `a` and `b` (distinct files), if `a`'s fetch does not yield a JSON
array while `b`'s does, then after the call: `a`'s sync-metadata timestamp
is exactly what it was before (so `a` is classified as changed again by
the next sync), `b`'s metadata timestamp is advanced to the manifest value,
and every record of `b`'s payload is present in the store.  The failing
shard aborts nothing.  Both category branches are covered. -/
theorem c4_failed_shard_skipped_sibling_merged :
    (∀ (net : NetworkState) (ws : List DataManifestEntry) (s : Store)
        (ea eb : DataManifestEntry) (xs : List Singer),
      ea.file ≠ eb.file →
      (getMeta (metaKey "singer" ea.file) s).getD (-1) < ea.ts →
      (getMeta (metaKey "singer" eb.file) s).getD (-1) < eb.ts →
      fetchedArr net.singerShards ("/data/singers/" ++ ea.file) = none →
      fetchedArr net.singerShards ("/data/singers/" ++ eb.file) = some xs →
      (xs.map Singer.id).Nodup →
      (getMeta (metaKey "singer" ea.file)
          (ensureCategoryUpdated net ⟨[ea, eb], ws⟩ "singer" s).1
        = getMeta (metaKey "singer" ea.file) s) ∧
      getMeta (metaKey "singer" eb.file)
          (ensureCategoryUpdated net ⟨[ea, eb], ws⟩ "singer" s).1 = some eb.ts ∧
      (∀ r ∈ xs, getSingerById r.id
          (ensureCategoryUpdated net ⟨[ea, eb], ws⟩ "singer" s).1 = some r) ∧
      ea.file ∈ computeChanged "singer"
          (ensureCategoryUpdated net ⟨[ea, eb], ws⟩ "singer" s).1 [ea, eb]) ∧
    (∀ (net : NetworkState) (vs : List DataManifestEntry) (s : Store)
        (ea eb : DataManifestEntry) (xs : List Software),
      ea.file ≠ eb.file →
      (getMeta (metaKey "software" ea.file) s).getD (-1) < ea.ts →
      (getMeta (metaKey "software" eb.file) s).getD (-1) < eb.ts →
      fetchedArr net.softwareShards ("/data/softwares/" ++ ea.file) = none →
      fetchedArr net.softwareShards ("/data/softwares/" ++ eb.file) = some xs →
      (xs.map Software.id).Nodup →
      (getMeta (metaKey "software" ea.file)
          (ensureCategoryUpdated net ⟨vs, [ea, eb]⟩ "software" s).1
        = getMeta (metaKey "software" ea.file) s) ∧
      getMeta (metaKey "software" eb.file)
          (ensureCategoryUpdated net ⟨vs, [ea, eb]⟩ "software" s).1 = some eb.ts ∧
      (∀ r ∈ xs, getSoftwareById r.id
          (ensureCategoryUpdated net ⟨vs, [ea, eb]⟩ "software" s).1 = some r) ∧
      ea.file ∈ computeChanged "software"
          (ensureCategoryUpdated net ⟨vs, [ea, eb]⟩ "software" s).1 [ea, eb]) := by
  constructor
  · intro net ws s ea eb xs hne hchA hchB hfailA harrB hnd
    have hkne : metaKey "singer" ea.file ≠ metaKey "singer" eb.file :=
      fun h => hne (metaKey_inj _ _ _ h)
    have hccm : computeChanged "singer" s [ea, eb] = [ea.file, eb.file] := by
      simp only [computeChanged]
      rw [if_pos hchA, if_pos hchB]
    have harr : fetchJSON net.singerShards ("/data/singers/" ++ eb.file)
        = some (.arr xs) := (fetchedArr_eq_some _ _ _).mp harrB
    have hts : manifestTs [ea, eb] eb.file = eb.ts := by
      unfold manifestTs
      have hbeq : (ea.file == eb.file) = false := by simpa using hne
      simp [List.find?, hbeq]
    have hloop : singerLoop net.singerShards "/data/singers/" [ea, eb]
        [ea.file, eb.file] ([], s, [])
        = (xs, setMeta (metaKey "singer" eb.file) eb.ts s,
           [.fetched ("/data/singers/" ++ ea.file),
            .fetched ("/data/singers/" ++ eb.file),
            .wroteMeta (metaKey "singer" eb.file) eb.ts]) := by
      cases hjA : fetchJSON net.singerShards ("/data/singers/" ++ ea.file) with
      | none => simp [singerLoop, hjA, harr, hts]
      | some p =>
          cases p with
          | arr ys =>
              rw [(fetchedArr_eq_some _ _ ys).mpr hjA] at hfailA
              cases hfailA
          | nonArray t => simp [singerLoop, hjA, harr, hts]
    have hE : ensureCategoryUpdated net ⟨[ea, eb], ws⟩ "singer" s
        = (if xs.length = 0
           then (setMeta (metaKey "singer" eb.file) eb.ts s,
                 [.fetched ("/data/singers/" ++ ea.file),
                  .fetched ("/data/singers/" ++ eb.file),
                  .wroteMeta (metaKey "singer" eb.file) eb.ts])
           else (putSingers xs (setMeta (metaKey "singer" eb.file) eb.ts s),
                 [.fetched ("/data/singers/" ++ ea.file),
                  .fetched ("/data/singers/" ++ eb.file),
                  .wroteMeta (metaKey "singer" eb.file) eb.ts,
                  .wroteSingers xs])) := by
      unfold ensureCategoryUpdated
      simp only [reduceIte]
      rw [hccm]
      rw [if_neg (show ¬([ea.file, eb.file].length = 0) by simp)]
      rw [hloop]
      rfl
    have ha : getMeta (metaKey "singer" ea.file)
        (ensureCategoryUpdated net ⟨[ea, eb], ws⟩ "singer" s).1
        = getMeta (metaKey "singer" ea.file) s := by
      rw [hE]
      by_cases hxs : xs.length = 0
      · rw [if_pos hxs]
        exact getMeta_setMeta_ne _ _ _ _ hkne
      · rw [if_neg hxs, getMeta_putSingers]
        exact getMeta_setMeta_ne _ _ _ _ hkne
    have hb : getMeta (metaKey "singer" eb.file)
        (ensureCategoryUpdated net ⟨[ea, eb], ws⟩ "singer" s).1 = some eb.ts := by
      rw [hE]
      by_cases hxs : xs.length = 0
      · rw [if_pos hxs]
        exact getMeta_setMeta_same _ _ _
      · rw [if_neg hxs, getMeta_putSingers]
        exact getMeta_setMeta_same _ _ _
    refine ⟨ha, hb, ?_, ?_⟩
    · intro r hr
      rw [hE]
      by_cases hxs : xs.length = 0
      · rw [List.length_eq_zero.mp hxs] at hr
        cases hr
      · rw [if_neg hxs]
        exact idbGet_idbPutMany_mem Singer.id _ xs r hnd hr
    · refine (mem_computeChanged _ _ _ _).mpr ⟨ea, List.mem_cons_self _ _, rfl, ?_⟩
      rw [ha]
      exact hchA
  · intro net vs s ea eb xs hne hchA hchB hfailA harrB hnd
    have hkne : metaKey "software" ea.file ≠ metaKey "software" eb.file :=
      fun h => hne (metaKey_inj _ _ _ h)
    have hccm : computeChanged "software" s [ea, eb] = [ea.file, eb.file] := by
      simp only [computeChanged]
      rw [if_pos hchA, if_pos hchB]
    have harr : fetchJSON net.softwareShards ("/data/softwares/" ++ eb.file)
        = some (.arr xs) := (fetchedArr_eq_some _ _ _).mp harrB
    have hts : manifestTs [ea, eb] eb.file = eb.ts := by
      unfold manifestTs
      have hbeq : (ea.file == eb.file) = false := by simpa using hne
      simp [List.find?, hbeq]
    have hloop : softwareLoop net.softwareShards "/data/softwares/" [ea, eb]
        [ea.file, eb.file] ([], s, [])
        = (xs, setMeta (metaKey "software" eb.file) eb.ts s,
           [.fetched ("/data/softwares/" ++ ea.file),
            .fetched ("/data/softwares/" ++ eb.file),
            .wroteMeta (metaKey "software" eb.file) eb.ts]) := by
      cases hjA : fetchJSON net.softwareShards ("/data/softwares/" ++ ea.file) with
      | none => simp [softwareLoop, hjA, harr, hts]
      | some p =>
          cases p with
          | arr ys =>
              rw [(fetchedArr_eq_some _ _ ys).mpr hjA] at hfailA
              cases hfailA
          | nonArray t => simp [softwareLoop, hjA, harr, hts]
    have hE : ensureCategoryUpdated net ⟨vs, [ea, eb]⟩ "software" s
        = (if xs.length = 0
           then (setMeta (metaKey "software" eb.file) eb.ts s,
                 [.fetched ("/data/softwares/" ++ ea.file),
                  .fetched ("/data/softwares/" ++ eb.file),
                  .wroteMeta (metaKey "software" eb.file) eb.ts])
           else (putSoftwares xs (setMeta (metaKey "software" eb.file) eb.ts s),
                 [.fetched ("/data/softwares/" ++ ea.file),
                  .fetched ("/data/softwares/" ++ eb.file),
                  .wroteMeta (metaKey "software" eb.file) eb.ts,
                  .wroteSoftwares xs])) := by
      unfold ensureCategoryUpdated
      simp only [if_neg (show ¬("software" : String) = "singer" by decide)]
      rw [hccm]
      rw [if_neg (show ¬([ea.file, eb.file].length = 0) by simp)]
      rw [hloop]
      rfl
    have ha : getMeta (metaKey "software" ea.file)
        (ensureCategoryUpdated net ⟨vs, [ea, eb]⟩ "software" s).1
        = getMeta (metaKey "software" ea.file) s := by
      rw [hE]
      by_cases hxs : xs.length = 0
      · rw [if_pos hxs]
        exact getMeta_setMeta_ne _ _ _ _ hkne
      · rw [if_neg hxs, getMeta_putSoftwares]
        exact getMeta_setMeta_ne _ _ _ _ hkne
    have hb : getMeta (metaKey "software" eb.file)
        (ensureCategoryUpdated net ⟨vs, [ea, eb]⟩ "software" s).1 = some eb.ts := by
      rw [hE]
      by_cases hxs : xs.length = 0
      · rw [if_pos hxs]
        exact getMeta_setMeta_same _ _ _
      · rw [if_neg hxs, getMeta_putSoftwares]
        exact getMeta_setMeta_same _ _ _
    refine ⟨ha, hb, ?_, ?_⟩
    · intro r hr
      rw [hE]
      by_cases hxs : xs.length = 0
      · rw [List.length_eq_zero.mp hxs] at hr
        cases hr
      · rw [if_neg hxs]
        exact idbGet_idbPutMany_mem Software.id _ xs r hnd hr
    · refine (mem_computeChanged _ _ _ _).mpr ⟨ea, List.mem_cons_self _ _, rfl, ?_⟩
      rw [ha]
      exact hchA

/-- A singer record with id `"b-singer"`, living in shard `b.json` of
`netAB`. -/
def singerB : Singer :=
  { id := "b-singer"
    names := [("en", "B Singer")]
    owners := ["owner-b"]
    authors := ["author-b"]
    homepage_url := none
    profile_image_url := none
    variants := [{ id := "b-singer-v1"
                   names := [("en", "B V1")]
                   download_url := some "https://example.com/b.zip"
                   manual_download_url := none
                   tags := none }] }

/-- A network on which `/data/singers/a.json` rejects and
`/data/singers/b.json` serves `[singerB]`. -/
def netAB : NetworkState :=
  { singerShards := fun url =>
      if url = "/data/singers/b.json" then .value (.arr [singerB]) else .throws
    softwareShards := fun _ => .throws }

/-- **C4 witness**: shard `a.json` fails, shard `b.json` succeeds;
afterwards `b.json`'s records are present, its metadata is advanced to 7,
and `a.json`'s metadata is unchanged. -/
theorem c4_witness :
    (getMeta (metaKey "singer" "a.json")
        (ensureCategoryUpdated netAB ⟨[⟨"a.json", 5⟩, ⟨"b.json", 7⟩], []⟩
          "singer" emptyStore).1
      = getMeta (metaKey "singer" "a.json") emptyStore) ∧
    getMeta (metaKey "singer" "b.json")
        (ensureCategoryUpdated netAB ⟨[⟨"a.json", 5⟩, ⟨"b.json", 7⟩], []⟩
          "singer" emptyStore).1
      = some 7 ∧
    getSingerById singerB.id
        (ensureCategoryUpdated netAB ⟨[⟨"a.json", 5⟩, ⟨"b.json", 7⟩], []⟩
          "singer" emptyStore).1
      = some singerB := by
  have h := c4_failed_shard_skipped_sibling_merged.1 netAB [] emptyStore
    ⟨"a.json", 5⟩ ⟨"b.json", 7⟩ [singerB] (by decide) (by decide) (by decide)
    (by decide) (by decide) (by decide)
  exact ⟨h.1, h.2.1, h.2.2.1 singerB (List.mem_singleton.mpr rfl)⟩

/-- A singer record with id `"x"`, living in shard `h.json` of `netX`. -/
def singerX : Singer :=
  { id := "x"
    names := [("en", "X")]
    owners := ["owner-x"]
    authors := ["author-x"]
    homepage_url := none
    profile_image_url := none
    variants := [{ id := "x-v1"
                   names := [("en", "X V1")]
                   download_url := none
                   manual_download_url := some "https://example.com/x"
                   tags := none }] }

/-- A network serving `[singerX]` at `/data/singers/h.json` and failing
everywhere else. -/
def netX : NetworkState :=
  { singerShards := fun url =>
      if url = "/data/singers/h.json" then .value (.arr [singerX]) else .throws
    softwareShards := fun _ => .throws }

/-- **C6**: a detail-page point lookup whose record is absent from the
store triggers exactly one sync pass for that category and retries the
lookup once: if the record is present after the sync (e.g. it lived in a
not-yet-synced shard) it is rendered, and if it is still absent the
NotFound condition surfaces as the rendered failure state rather than an
unhandled crash.  Both category branches are covered. -/
theorem c6_point_lookup_miss_syncs_once (net : NetworkState)
    (manifest : DataManifest) (id : String) (s : Store) (hid : id ≠ "") :
    (getSingerById id s = none →
      (boot net manifest "singer" id s).2.2 = 1 ∧
      (∀ item, getSingerById id (ensureCategoryUpdated net manifest "singer" s).1
          = some item →
        (boot net manifest "singer" id s).1 = DetailResult.renderedSinger item) ∧
      (getSingerById id (ensureCategoryUpdated net manifest "singer" s).1 = none →
        (boot net manifest "singer" id s).1 = DetailResult.failedToLoad)) ∧
    (getSoftwareById id s = none →
      (boot net manifest "software" id s).2.2 = 1 ∧
      (∀ item, getSoftwareById id (ensureCategoryUpdated net manifest "software" s).1
          = some item →
        (boot net manifest "software" id s).1 = DetailResult.renderedSoftware item) ∧
      (getSoftwareById id (ensureCategoryUpdated net manifest "software" s).1 = none →
        (boot net manifest "software" id s).1 = DetailResult.failedToLoad)) := by
  constructor
  · intro habs
    have hb : boot net manifest "singer" id s
        = (match getSingerById id (ensureCategoryUpdated net manifest "singer" s).1 with
           | some item =>
              (DetailResult.renderedSinger item,
               (ensureCategoryUpdated net manifest "singer" s).1, 1)
           | none =>
              (DetailResult.failedToLoad,
               (ensureCategoryUpdated net manifest "singer" s).1, 1)) := by
      unfold boot
      rw [if_neg hid, if_pos (rfl : ("singer" : String) = "singer"), habs]
      rfl
    refine ⟨?_, ?_, ?_⟩
    · rw [hb]
      cases hlook : getSingerById id (ensureCategoryUpdated net manifest "singer" s).1 <;>
        rfl
    · intro item hitem
      rw [hb, hitem]
    · intro hnone
      rw [hb, hnone]
  · intro habs
    have hb : boot net manifest "software" id s
        = (match getSoftwareById id (ensureCategoryUpdated net manifest "software" s).1 with
           | some item =>
              (DetailResult.renderedSoftware item,
               (ensureCategoryUpdated net manifest "software" s).1, 1)
           | none =>
              (DetailResult.failedToLoad,
               (ensureCategoryUpdated net manifest "software" s).1, 1)) := by
      unfold boot
      rw [if_neg hid, if_neg (show ¬("software" : String) = "singer" by decide), habs]
      rfl
    refine ⟨?_, ?_, ?_⟩
    · rw [hb]
      cases hlook : getSoftwareById id (ensureCategoryUpdated net manifest "software" s).1 <;>
        rfl
    · intro item hitem
      rw [hb, hitem]
    · intro hnone
      rw [hb, hnone]

/-- **C6 witness**: `"x"` is not cached but lives in the not-yet-synced
shard `h.json`; the detail boot performs exactly one sync pass and renders
the record. -/
theorem c6_witness :
    (boot netX ⟨[⟨"h.json", 1000⟩], []⟩ "singer" "x" emptyStore).1
      = DetailResult.renderedSinger singerX ∧
    (boot netX ⟨[⟨"h.json", 1000⟩], []⟩ "singer" "x" emptyStore).2.2 = 1 := by
  have h := c6_point_lookup_miss_syncs_once netX ⟨[⟨"h.json", 1000⟩], []⟩ "x"
    emptyStore (by decide)
  exact ⟨(h.1 (by decide)).2.1 singerX (by decide), (h.1 (by decide)).1⟩

/-- **C7**: from an empty store, with Manifest
`{singers: [{file: 'h.json', ts: 1000}], softwares: []}`,
`loadCategory('singer')` performs exactly one fetch, to
`/data/singers/h.json`; persists every record of the fetched array into
the singers partition; sets the metadata key `singer:file:h.json` to
`1000`; and returns exactly the fetched array (in particular a list equal
to it as a set). -/
theorem c7_load_singer_scenario (net : NetworkState) (xs : List Singer)
    (hnet : fetchedArr net.singerShards "/data/singers/h.json" = some xs)
    (hnd : (xs.map Singer.id).Nodup) :
    fetchedUrls (loadCategory net ⟨[⟨"h.json", 1000⟩], []⟩ "singer" emptyStore).2.1
      = ["/data/singers/h.json"] ∧
    getMeta "singer:file:h.json"
        (loadCategory net ⟨[⟨"h.json", 1000⟩], []⟩ "singer" emptyStore).1
      = some 1000 ∧
    (∀ r ∈ xs, getSingerById r.id
        (loadCategory net ⟨[⟨"h.json", 1000⟩], []⟩ "singer" emptyStore).1
      = some r) ∧
    (loadCategory net ⟨[⟨"h.json", 1000⟩], []⟩ "singer" emptyStore).2.2
      = Sum.inl xs := by
  have harr : fetchJSON net.singerShards "/data/singers/h.json" = some (.arr xs) :=
    (fetchedArr_eq_some _ _ _).mp hnet
  have hurl : ("/data/singers/" ++ "h.json" : String) = "/data/singers/h.json" := rfl
  have hloop : singerLoop net.singerShards "/data/singers/" [⟨"h.json", 1000⟩]
      ["h.json"] ([], emptyStore, [])
      = (xs, setMeta (metaKey "singer" "h.json") 1000 emptyStore,
         [.fetched "/data/singers/h.json",
          .wroteMeta (metaKey "singer" "h.json") 1000]) := by
    simp only [singerLoop, hurl, harr]
    simp [manifestTs, List.find?]
  have hE : ensureCategoryUpdated net ⟨[⟨"h.json", 1000⟩], []⟩ "singer" emptyStore
      = (if xs.length = 0
         then (setMeta (metaKey "singer" "h.json") 1000 emptyStore,
               [.fetched "/data/singers/h.json",
                .wroteMeta (metaKey "singer" "h.json") 1000])
         else (putSingers xs (setMeta (metaKey "singer" "h.json") 1000 emptyStore),
               [.fetched "/data/singers/h.json",
                .wroteMeta (metaKey "singer" "h.json") 1000,
                .wroteSingers xs])) := by
    unfold ensureCategoryUpdated
    simp only [reduceIte]
    rw [show computeChanged "singer" emptyStore
        (DataManifest.mk [⟨"h.json", 1000⟩] []).singers = ["h.json"] from rfl]
    rw [show singerLoop net.singerShards "/data/singers/"
        (DataManifest.mk [⟨"h.json", 1000⟩] []).singers ["h.json"]
        ([], emptyStore, [])
      = (xs, setMeta (metaKey "singer" "h.json") 1000 emptyStore,
         [.fetched "/data/singers/h.json",
          .wroteMeta (metaKey "singer" "h.json") 1000]) from hloop]
    simp
  have hmeta2 : getMeta "singer:file:h.json"
      (ensureCategoryUpdated net ⟨[⟨"h.json", 1000⟩], []⟩ "singer" emptyStore).1
      = some 1000 := by
    rw [hE]
    by_cases hxs : xs.length = 0
    · rw [if_pos hxs]
      exact getMeta_setMeta_same _ _ _
    · rw [if_neg hxs, getMeta_putSingers]
      exact getMeta_setMeta_same _ _ _
  refine ⟨?_, hmeta2, ?_, ?_⟩
  · show fetchedUrls
        (ensureCategoryUpdated net ⟨[⟨"h.json", 1000⟩], []⟩ "singer" emptyStore).2
      = ["/data/singers/h.json"]
    rw [hE]
    by_cases hxs : xs.length = 0
    · rw [if_pos hxs]
      rfl
    · rw [if_neg hxs]
      rfl
  · intro r hr
    show getSingerById r.id
        (ensureCategoryUpdated net ⟨[⟨"h.json", 1000⟩], []⟩ "singer" emptyStore).1
      = some r
    rw [hE]
    by_cases hxs : xs.length = 0
    · rw [List.length_eq_zero.mp hxs] at hr
      cases hr
    · rw [if_neg hxs]
      exact idbGet_idbPutMany_mem Singer.id _ xs r hnd hr
  · show (if ("singer" : String) = "singer"
        then Sum.inl (getAllSingers
          (ensureCategoryUpdated net ⟨[⟨"h.json", 1000⟩], []⟩ "singer" emptyStore).1)
        else Sum.inr (getAllSoftwares
          (ensureCategoryUpdated net ⟨[⟨"h.json", 1000⟩], []⟩ "singer" emptyStore).1))
      = Sum.inl xs
    simp only [reduceIte]
    rw [hE]
    by_cases hxs : xs.length = 0
    · rw [if_pos hxs]
      rw [List.length_eq_zero.mp hxs]
      rfl
    · rw [if_neg hxs]
      have hput : idbPutMany Singer.id
          (setMeta (metaKey "singer" "h.json") 1000 emptyStore).singers xs
          = [] ++ xs.map (fun r => (Singer.id r, r)) :=
        idbPutMany_eq_append Singer.id _ xs hnd (fun it _ => rfl)
      show Sum.inl (getAllSingers
          (putSingers xs (setMeta (metaKey "singer" "h.json") 1000 emptyStore)))
        = Sum.inl xs
      unfold getAllSingers putSingers
      rw [show (setMeta (metaKey "singer" "h.json") 1000 emptyStore).singers
          = ([] : List (String × Singer)) from rfl] at hput ⊢
      rw [hput]
      have hcomp : (Prod.snd ∘ fun r : Singer => (r.id, r)) = fun r => r := rfl
      simp only [List.nil_append, List.map_map, hcomp, List.map_id']

/-- **C7 witness**: the scenario run against the concrete network `netX`
serving `[singerX]` at `/data/singers/h.json`. -/
theorem c7_witness :
    fetchedUrls (loadCategory netX ⟨[⟨"h.json", 1000⟩], []⟩ "singer" emptyStore).2.1
      = ["/data/singers/h.json"] ∧
    getMeta "singer:file:h.json"
        (loadCategory netX ⟨[⟨"h.json", 1000⟩], []⟩ "singer" emptyStore).1
      = some 1000 ∧
    (loadCategory netX ⟨[⟨"h.json", 1000⟩], []⟩ "singer" emptyStore).2.2
      = Sum.inl [singerX] := by
  have h := c7_load_singer_scenario netX [singerX] (by decide) (by decide)
  exact ⟨h.1, h.2.1, h.2.2.2⟩

/-- **C9**: `setMeta`/`getMeta` round-trip — after `setMeta k v`, reading
`k` yields `v`, and reading any other key `k'` yields exactly what it
yielded before the write. -/
theorem c9_setMeta_getMeta_roundtrip (s : Store) (k : String) (v : Int) :
    getMeta k (setMeta k v s) = some v ∧
    ∀ k', k' ≠ k → getMeta k' (setMeta k v s) = getMeta k' s :=
  ⟨getMeta_setMeta_same k v s, fun k' h => getMeta_setMeta_ne k k' v s h⟩

/-- **C9 witness**: the round-trip and the frame condition at concrete
keys and value. -/
theorem c9_witness :
    getMeta "singer:file:a.json" (setMeta "singer:file:a.json" 7 emptyStore)
      = some 7 ∧
    getMeta "software:file:b.json" (setMeta "singer:file:a.json" 7 emptyStore)
      = getMeta "software:file:b.json" emptyStore :=
  ⟨(c9_setMeta_getMeta_roundtrip emptyStore "singer:file:a.json" 7).1,
   (c9_setMeta_getMeta_roundtrip emptyStore "singer:file:a.json" 7).2
     "software:file:b.json" (by decide)⟩

end SvsIndex
